import Mathlib

/-!
Verification of the tsgoast library: a TypeScript CST-to-typed-AST layer
built on an external tree-sitter engine. The definitions below are shallow
embeddings of the Go source (parser.go / tree.go / analyzer). Texts are
modelled as Lean Strings, byte buffers as List Char (all concrete inputs
are ASCII, so byte offsets and character offsets coincide).
-/

set_option maxHeartbeats 1000000

namespace Tsgoast

/-! ### Go string primitives used by the library -/

/-- Whitespace per the Go function unicode.IsSpace (the set used by strings.TrimSpace):
ASCII controls and space, plus the Unicode White_Space code points. -/
def goIsSpace (c : Char) : Bool :=
  c = ' ' || c = '\t' || c = '\n' || c = '\u000B' || c = '\u000C' || c = '\r' ||
  c = '\u0085' || c = '\u00A0' || c = '\u1680' ||
  ('\u2000' ≤ c && c ≤ '\u200A') ||
  c = '\u2028' || c = '\u2029' || c = '\u202F' || c = '\u205F' || c = '\u3000'

/-- Embedding of Go strings.TrimSpace. -/
def goTrim (s : String) : String :=
  (((s.toList.dropWhile goIsSpace).reverse.dropWhile goIsSpace).reverse).asString

/-- Embedding of Go strings.HasPrefix. -/
def goStartsWith (s pre : String) : Bool :=
  pre.toList.isPrefixOf s.toList

/-- Embedding of Go strings.TrimPrefix: drop the prefix when present. -/
def goStripPre (s pre : String) : String :=
  if goStartsWith s pre then (s.toList.drop pre.toList.length).asString else s

/-- Index of the first occurrence of need in hay, scanning left to right,
accumulating the current position. -/
def goIndexAux (need : List Char) : List Char → Nat → Option Nat
  | [], i => if need.isPrefixOf [] then some i else none
  | h :: t, i => if need.isPrefixOf (h :: t) then some i else goIndexAux need t (i + 1)

/-- Embedding of Go strings.Index: position of the first occurrence of sub
in s, or none where Go returns -1. Positions are character offsets; on the
ASCII data handled here they coincide with the byte offsets of Go, and the
library only compares indices within one haystack, which is
order-preserving either way. -/
def goIndexOf (s sub : String) : Option Nat :=
  goIndexAux sub.toList s.toList 0

/-- Embedding of Go strings.Contains (Index >= 0). -/
def goContains (s sub : String) : Bool :=
  (goIndexOf s sub).isSome

/-- Go slice source[a:b] of a byte buffer, rendered as a string. -/
def strSlice (src : List Char) (a b : Nat) : String :=
  ((src.drop a).take (b - a)).asString

/-! ### Data model (ast package) -/

/-- Taxonomy tags: ast.NodeType constants. -/
inductive NodeType where
  | function
  | arrowFunction
  | method
  | interface
  | typeAlias
  | expression
  | identifier
  | literal
  | property
  | parameter
  | unknown
deriving DecidableEq, Repr

/-- Zero-based row/column plus absolute byte offset: ast.Position. -/
structure Position where
  line : Nat
  column : Nat
  offset : Nat
deriving DecidableEq, Repr

/-- Byte range of a node: ast.Range (the Go field End is named stop here). -/
structure SrcRange where
  start : Position
  stop : Position
deriving DecidableEq, Repr

/-- Converted AST node: ast.BaseNode with NodeType, Content, SourceRange and
ChildNodes. The Go ParentNode back-reference is not storable in an
inductive tree; algorithms that walk parents receive the ancestor chain
(nearest first) explicitly, exactly the chain convertNode wires up. -/
inductive BaseNode where
  | mk (nodeType : NodeType) (content : String) (sourceRange : SrcRange)
      (children : List BaseNode)

/-- Tag accessor (BaseNode.Type). -/
def BaseNode.nodeType : BaseNode → NodeType
  | .mk t _ _ _ => t

/-- Text accessor (BaseNode.Text). -/
def BaseNode.content : BaseNode → String
  | .mk _ c _ _ => c

/-- Range accessor (BaseNode.Range). -/
def BaseNode.sourceRange : BaseNode → SrcRange
  | .mk _ _ r _ => r

/-- Children accessor (BaseNode.Children). -/
def BaseNode.children : BaseNode → List BaseNode
  | .mk _ _ _ ch => ch

/-! ### Engine-side tree (tree-sitter interface) -/

/-- Row/column pair of the engine (tree-sitter Point). -/
structure TSPoint where
  row : Nat
  column : Nat
deriving DecidableEq, Repr

/-- Engine CST node as exposed to convertNode: kind tag, byte offsets,
positions and ordered children; a none child stands for a nil child
reported by the engine binding, which the Go loop skips. -/
inductive TSNode where
  | mk (kind : String) (startByte endByte : Nat) (startPos endPos : TSPoint)
      (children : List (Option TSNode))

/-- Kind accessor. -/
def TSNode.kind : TSNode → String
  | .mk k _ _ _ _ _ => k

/-- Children accessor. -/
def TSNode.children : TSNode → List (Option TSNode)
  | .mk _ _ _ _ _ ch => ch

/-! ### Taxonomy classifier, both versions (parser.go) -/

/-- isExpressionType of the switch-based parser version: linear scan of a
fixed slice of expression kind tags. -/
def isExpressionTypeSwitch (tsType : String) : Bool :=
  ["binary_expression", "unary_expression", "call_expression",
   "member_expression", "assignment_expression", "ternary_expression",
   "new_expression", "await_expression"].any (fun et => tsType == et)

/-- Switch-based mapNodeType from the switch-statement version of parser.go. -/
def mapNodeTypeSwitch (tsType : String) : NodeType :=
  if tsType = "function_declaration" then .function
  else if tsType = "arrow_function" then .arrowFunction
  else if tsType = "method_definition" then .method
  else if tsType = "interface_declaration" then .interface
  else if tsType = "type_alias_declaration" then .typeAlias
  else if tsType = "identifier" then .identifier
  else if tsType = "property_signature" then .property
  else if tsType = "formal_parameters" ∨ tsType = "required_parameter" ∨
      tsType = "optional_parameter" then .parameter
  else if tsType = "string" ∨ tsType = "number" ∨ tsType = "true" ∨
      tsType = "false" ∨ tsType = "null" ∨ tsType = "undefined" then .literal
  else if isExpressionTypeSwitch tsType then .expression
  else .unknown

/-- nodeTypeMap of the map-based version of parser.go, as an association
list (the Go map has pairwise distinct keys, so lookup is faithful). -/
def nodeTypeMap : List (String × NodeType) :=
  [("function_declaration", .function),
   ("arrow_function", .arrowFunction),
   ("method_definition", .method),
   ("interface_declaration", .interface),
   ("type_alias_declaration", .typeAlias),
   ("identifier", .identifier),
   ("property_signature", .property),
   ("formal_parameters", .parameter),
   ("required_parameter", .parameter),
   ("optional_parameter", .parameter),
   ("string", .literal),
   ("number", .literal),
   ("true", .literal),
   ("false", .literal),
   ("null", .literal),
   ("undefined", .literal)]

/-- expressionTypes set of the map-based version (map from string to true). -/
def expressionTypes : List String :=
  ["binary_expression", "unary_expression", "call_expression",
   "member_expression", "assignment_expression", "ternary_expression",
   "new_expression", "await_expression"]

/-- Map-based mapNodeType: direct map lookup, then expression-set membership,
defaulting to Unknown. -/
def mapNodeTypeMapBased (tsType : String) : NodeType :=
  match nodeTypeMap.lookup tsType with
  | some nodeType => nodeType
  | none => if expressionTypes.contains tsType then .expression else .unknown

/-- The classifier used by node conversion (both parser versions agree; the
map-based one is taken as canonical here). -/
def mapNodeType (tsType : String) : NodeType := mapNodeTypeMapBased tsType

/-! ### Conversion of the engine tree (parser.go convertNode) -/

mutual

/-- convertNode of parser.go: copy kind (classified), text slice
source[startByte:endByte] and positions, recursively converting children
in order. The Go function also wires the parent back-reference, which the
inductive tree carries implicitly as the path from the root. -/
def convertNode (src : List Char) : TSNode → BaseNode
  | .mk kind startByte endByte startPos endPos children =>
    BaseNode.mk (mapNodeType kind) (strSlice src startByte endByte)
      ⟨⟨startPos.row, startPos.column, startByte⟩,
       ⟨endPos.row, endPos.column, endByte⟩⟩
      (convertChildren src children)

/-- Child loop of convertNode: a nil child reported by the engine is
skipped, every other child is converted in order. -/
def convertChildren (src : List Char) : List (Option TSNode) → List BaseNode
  | [] => []
  | none :: rest => convertChildren src rest
  | some c :: rest => convertNode src c :: convertChildren src rest

end

/-! ### Typed statements (ast/statement.go) and the reconstructor (tree.go) -/

/-- Typed statement variants as built by tree.go. Each constructor wraps the
originating BaseNode plus the semantic fields the corresponding build
function computes; fields the builders always initialize to empty slices
(Declarations, Parameters, Cases, Specifiers, Members, Body) are omitted
since they carry no information. -/
inductive Stmt where
  | variableStmt (node : BaseNode) (kind : String)
  | functionDecl (node : BaseNode) (name : String)
      (isAsync isExported isGenerator : Bool)
  | classDecl (node : BaseNode) (name : String) (isAbstract isExported : Bool)
  | ifStmt (node : BaseNode)
  | whileStmt (node : BaseNode)
  | forStmt (node : BaseNode)
  | forInStmt (node : BaseNode)
  | forOfStmt (node : BaseNode) (isAwait : Bool)
  | switchStmt (node : BaseNode)
  | tryStmt (node : BaseNode)
  | returnStmt (node : BaseNode)
  | throwStmt (node : BaseNode)
  | breakStmt (node : BaseNode)
  | continueStmt (node : BaseNode)
  | importDecl (node : BaseNode)
  | exportDecl (node : BaseNode) (isDefault : Bool)
  | enumDecl (node : BaseNode) (isConst isExported : Bool)
  | namespaceDecl (node : BaseNode) (isExported : Bool)
  | exprStmt (node : BaseNode)

/-- Discriminator: is this statement a FunctionDeclaration variant. -/
def Stmt.isFunctionDecl : Stmt → Bool
  | .functionDecl _ _ _ _ _ => true
  | _ => false

/-- extractFunctionName of tree.go: prefer an Identifier direct child, else
strip async and the function keyword from the trimmed text and take the
substring before the first parenthesis when its index is positive. -/
def extractFunctionName (node : BaseNode) : String :=
  match node.children.find? (fun child => child.nodeType == .identifier) with
  | some child => child.content
  | none =>
    let text0 := goTrim node.content
    let text1 := if goStartsWith text0 "async " then goTrim (goStripPre text0 "async ") else text0
    let text2 :=
      if goStartsWith text1 "function " then goStripPre text1 "function "
      else if goStartsWith text1 "function*" then goStripPre text1 "function*"
      else text1
    let text3 := goTrim text2
    match goIndexOf text3 "(" with
    | some idx => if idx > 0 then goTrim (text3.toList.take idx).asString else ""
    | none => ""

/-- Delimiter scan of extractClassName: the Go loop returns on the first
delimiter in slice order whose index is positive. -/
def classNameScan (text : String) : List String → String
  | [] => goTrim text
  | delim :: rest =>
    match goIndexOf text delim with
    | some idx => if idx > 0 then goTrim (text.toList.take idx).asString else classNameScan text rest
    | none => classNameScan text rest

/-- extractClassName of tree.go: prefer an Identifier direct child, else
strip abstract and the class keyword from the trimmed text and cut at the
first of an opening brace, extends, implements or a type-parameter angle
(tried in that slice order). -/
def extractClassName (node : BaseNode) : String :=
  match node.children.find? (fun child => child.nodeType == .identifier) with
  | some child => child.content
  | none =>
    let text0 := goTrim node.content
    let text1 := if goStartsWith text0 "abstract " then goTrim (goStripPre text0 "abstract ") else text0
    let text2 := if goStartsWith text1 "class " then goStripPre text1 "class " else text1
    let text3 := goTrim text2
    classNameScan text3 ["\x7b", " extends", " implements", "<"]

/-- buildVariableStatement: Kind is const when the raw text contains
"const " anywhere, else let when it contains "let ", else var. -/
def buildVariableStatement (node : BaseNode) : Stmt :=
  .variableStmt node
    (if goContains node.content "const " then "const"
     else if goContains node.content "let " then "let"
     else "var")

/-- buildFunctionDeclaration: name via extractFunctionName, IsAsync by
containment of "async ", IsExported by trimmed "export " prefix,
IsGenerator by containment of "function*". -/
def buildFunctionDeclaration (node : BaseNode) : Stmt :=
  .functionDecl node (extractFunctionName node)
    (goContains node.content "async ")
    (goStartsWith (goTrim node.content) "export ")
    (goContains node.content "function*")

/-- buildClassDeclaration: name via extractClassName, IsAbstract by
containment of "abstract ", IsExported by trimmed "export " prefix. -/
def buildClassDeclaration (node : BaseNode) : Stmt :=
  .classDecl node (extractClassName node)
    (goContains node.content "abstract ")
    (goStartsWith (goTrim node.content) "export ")

/-- buildForStatement: sub-classify the for family by substring search,
" of " first (capturing IsAwait by containment of "await "), then " in ",
else a plain for statement. -/
def buildForStatement (node : BaseNode) : Stmt :=
  if goContains node.content " of " then
    .forOfStmt node (goContains node.content "await ")
  else if goContains node.content " in " then .forInStmt node
  else .forStmt node

/-- buildExportDeclaration: IsDefault by containment of "export default". -/
def buildExportDeclaration (node : BaseNode) : Stmt :=
  .exportDecl node (goContains node.content "export default")

/-- buildEnumDeclaration: IsConst by containment of "const enum",
IsExported by trimmed "export " prefix. -/
def buildEnumDeclaration (node : BaseNode) : Stmt :=
  .enumDecl node (goContains node.content "const enum")
    (goStartsWith (goTrim node.content) "export ")

/-- buildNamespaceDeclaration: IsExported by trimmed "export " prefix. -/
def buildNamespaceDeclaration (node : BaseNode) : Stmt :=
  .namespaceDecl node (goStartsWith (goTrim node.content) "export ")

/-- buildStatement of tree.go: ordered text-pattern classification of one
direct child of the root; first match wins; none when the trimmed text is
empty or the raw text starts with a line-comment marker. -/
def buildStatement (node : BaseNode) : Option Stmt :=
  let text := node.content
  if goStartsWith (goTrim text) "const " || goStartsWith (goTrim text) "let " ||
      goStartsWith (goTrim text) "var " then
    some (buildVariableStatement node)
  else if goStartsWith (goTrim text) "function " ||
      goStartsWith (goTrim text) "async function" then
    some (buildFunctionDeclaration node)
  else if goStartsWith (goTrim text) "class " ||
      goStartsWith (goTrim text) "abstract class" then
    some (buildClassDeclaration node)
  else if goStartsWith (goTrim text) "if " || goStartsWith (goTrim text) "if(" then
    some (.ifStmt node)
  else if goStartsWith (goTrim text) "while " || goStartsWith (goTrim text) "while(" then
    some (.whileStmt node)
  else if goStartsWith (goTrim text) "for " || goStartsWith (goTrim text) "for(" then
    some (buildForStatement node)
  else if goStartsWith (goTrim text) "switch " || goStartsWith (goTrim text) "switch(" then
    some (.switchStmt node)
  else if goStartsWith (goTrim text) "try " || goStartsWith (goTrim text) "try\x7b" then
    some (.tryStmt node)
  else if goStartsWith (goTrim text) "return" then some (.returnStmt node)
  else if goStartsWith (goTrim text) "throw " then some (.throwStmt node)
  else if goStartsWith (goTrim text) "break" then some (.breakStmt node)
  else if goStartsWith (goTrim text) "continue" then some (.continueStmt node)
  else if goStartsWith (goTrim text) "import " then some (.importDecl node)
  else if goStartsWith (goTrim text) "export " then some (buildExportDeclaration node)
  else if goContains text "enum " then some (buildEnumDeclaration node)
  else if goContains text "namespace " then some (buildNamespaceDeclaration node)
  else if (goTrim text).length > 0 && !(goStartsWith text "//") then
    some (.exprStmt node)
  else none

/-- extractStatements of tree.go: nil root yields no statements; otherwise
each direct child of the root that buildStatement classifies contributes
one statement, in order. -/
def extractStatements : Option BaseNode → List Stmt
  | none => []
  | some root => root.children.filterMap buildStatement

/-! ### parse and the typed tree (parser.go Parse, tree.go ParseTree) -/

/-- Error cases of Parse: empty source, engine produced no tree, tree has
no root node. -/
inductive ParseError where
  | emptyInput
  | engineFailure
  | noRootNode
deriving DecidableEq, Repr

/-- Parse of parser.go, with the answer of the external engine for this call
passed explicitly: none models a nil tree, some none a tree whose root is
nil, some (some root) a produced root. Empty input is rejected first; on
success the converted root is returned, on failure only the error. -/
def parse (engine : Option (Option TSNode)) (source : List Char) :
    Except ParseError BaseNode :=
  if source.length = 0 then .error .emptyInput
  else
    match engine with
    | none => .error .engineFailure
    | some none => .error .noRootNode
    | some (some root) => .ok (convertNode source root)

/-- ParseTree of tree.go: parse, then reconstruct the statement sequence
from the direct children of the root; errors pass through untouched. -/
def parseTree (engine : Option (Option TSNode)) (source : List Char) :
    Except ParseError (BaseNode × List Stmt) :=
  match parse engine source with
  | .error e => .error e
  | .ok root => .ok (root, extractStatements (some root))

/-! ### Traversal engine (analyzer.Visit, FindNodes) -/

mutual

/-- Invocation trace of visitNode: the visitor is invoked on the node; when
it answers true the children are traversed in order, when it answers false
only this subtree is cut off. The Go visitor may be a stateful closure;
the trace here is taken for a visitor that is a pure function of the
node. -/
def visitSeq (visitor : BaseNode → Bool) : BaseNode → List BaseNode
  | .mk t c r ch =>
    if visitor (.mk t c r ch) then .mk t c r ch :: visitSeqList visitor ch
    else [.mk t c r ch]

/-- Sibling loop of visitNode. -/
def visitSeqList (visitor : BaseNode → Bool) : List BaseNode → List BaseNode
  | [] => []
  | c :: rest => visitSeq visitor c ++ visitSeqList visitor rest

end

/-- analyzer.Visit: a nil root is not traversed at all. -/
def visitTrace (root : Option BaseNode) (visitor : BaseNode → Bool) : List BaseNode :=
  match root with
  | none => []
  | some r => visitSeq visitor r

mutual

/-- Every node of the tree paired with its ancestor chain, nearest ancestor
first, in depth-first pre-order. This enumerates the parent
back-references convertNode wires up. -/
def preorderWithAncestors (ancestors : List BaseNode) :
    BaseNode → List (BaseNode × List BaseNode)
  | .mk t c r ch =>
    (.mk t c r ch, ancestors) ::
      preorderWithAncestorsList (.mk t c r ch :: ancestors) ch

/-- Child loop of preorderWithAncestors. -/
def preorderWithAncestorsList (ancestors : List BaseNode) :
    List BaseNode → List (BaseNode × List BaseNode)
  | [] => []
  | c :: rest =>
    preorderWithAncestors ancestors c ++ preorderWithAncestorsList ancestors rest

end

/-- analyzer.FindNodes: full traversal (the internal visitor always answers
true) collecting every node satisfying the predicate, in visitation
order. -/
def findNodes (pred : BaseNode → Bool) (root : Option BaseNode) : List BaseNode :=
  (visitTrace root (fun _ => true)).filter pred

/-- analyzer.FindFunctions: nodes tagged Function or ArrowFunction. -/
def findFunctions (root : Option BaseNode) : List BaseNode :=
  findNodes (fun node => node.nodeType == .function || node.nodeType == .arrowFunction) root

/-! ### Domain helpers (analyzer/function.go) -/

/-- findIdentifierInChildren: text of the first direct child tagged
Identifier, or the empty string. -/
def findIdentifierInChildren (node : BaseNode) : String :=
  match node.children.find? (fun child => child.nodeType == .identifier) with
  | some child => child.content
  | none => ""

/-- isVariableNameForArrowFunction: both the identifier text and the arrow
function text must occur in the parent text, and the first occurrence of
the identifier must come strictly before that of the arrow function. -/
def isVariableNameForArrowFunction (parent identifier arrowFunc : BaseNode) : Bool :=
  match goIndexOf parent.content identifier.content,
      goIndexOf parent.content arrowFunc.content with
  | some identifierPos, some arrowPos => decide (identifierPos < arrowPos)
  | _, _ => false

/-- extractArrowFunctionName: walk the ancestor chain upward (nearest
first); at each ancestor return the text of its first direct Identifier
child positioned before the arrow function, else keep ascending. The Go
cycle guard (an ancestor whose parent is itself) cannot trigger on a
finite ancestor chain and has no counterpart here. -/
def extractArrowFunctionName (ancestors : List BaseNode) (arrowFunc : BaseNode) : String :=
  match ancestors with
  | [] => ""
  | current :: rest =>
    match current.children.find? (fun child =>
        child.nodeType == .identifier &&
        isVariableNameForArrowFunction current child arrowFunc) with
    | some child => child.content
    | none => extractArrowFunctionName rest arrowFunc

/-- GetFunctionName: identifier child for functions and methods, ancestor
walk for arrow functions, empty string otherwise. The ancestor chain
stands for the parent back-references of the node. -/
def GetFunctionName (node : BaseNode) (ancestors : List BaseNode) : String :=
  if node.nodeType == .function || node.nodeType == .method then
    findIdentifierInChildren node
  else if node.nodeType == .arrowFunction then
    extractArrowFunctionName ancestors node
  else ""

/-- The counting condition inside CountParameters: tagged Parameter with
trimmed text that is non-empty and does not start with an opening
parenthesis. -/
def isCountedParameter (n : BaseNode) : Bool :=
  n.nodeType == .parameter && goTrim n.content != "" &&
    !(goStartsWith (goTrim n.content) "(")

mutual

/-- countInNode closure of CountParameters: test the node itself, then
recurse into every child. -/
def countInNode : BaseNode → Nat
  | .mk t c r ch =>
    (if isCountedParameter (.mk t c r ch) then 1 else 0) + countInList ch

/-- Child loop of countInNode. -/
def countInList : List BaseNode → Nat
  | [] => 0
  | c :: rest => countInNode c + countInList rest

end

/-- analyzer.CountParameters: zero for a nil node, else the recursive
count. -/
def CountParameters : Option BaseNode → Nat
  | none => 0
  | some n => countInNode n

mutual

/-- The node together with all of its descendants, in pre-order. -/
def allNodes : BaseNode → List BaseNode
  | .mk t c r ch => .mk t c r ch :: allNodesList ch

/-- Child loop of allNodes. -/
def allNodesList : List BaseNode → List BaseNode
  | [] => []
  | c :: rest => allNodes c ++ allNodesList rest

end

/-! ### Concrete engine trees for the testable scenarios

The parsing engine is an external collaborator, outside the library scope
and specified only at its interface; the concrete CSTs it emits for the
scenario inputs are modelled here from the documented tree-sitter
TypeScript grammar output for those inputs. All scenario sources are
single-line ASCII, so rows are 0 and columns equal byte offsets. -/

/-- Engine node with no children spanning bytes a to b of a one-line
source. -/
def tsLeaf (kind : String) (a b : Nat) : TSNode :=
  .mk kind a b ⟨0, a⟩ ⟨0, b⟩ []

/-- Engine node with children spanning bytes a to b of a one-line
source. -/
def tsNode (kind : String) (a b : Nat) (children : List TSNode) : TSNode :=
  .mk kind a b ⟨0, a⟩ ⟨0, b⟩ (children.map some)

/-- Scenario B source bytes. -/
def bSrc : List Char := "export async function f() \x7b\x7d".toList

/-- Modelled from the spec: the CST statement node of the external engine for
scenario B. Tree-sitter wraps an exported function in a single
export_statement spanning the whole statement, whose children are the
export keyword token and the function_declaration. -/
def bStmtEngine : TSNode :=
  tsNode "export_statement" 0 28
    [tsLeaf "export" 0 6,
     tsNode "function_declaration" 7 28
       [tsLeaf "async" 7 12,
        tsLeaf "function" 13 21,
        tsLeaf "identifier" 22 23,
        tsNode "formal_parameters" 23 25 [tsLeaf "(" 23 24, tsLeaf ")" 24 25],
        tsNode "statement_block" 26 28 [tsLeaf "\x7b" 26 27, tsLeaf "\x7d" 27 28]]]

/-- Modelled from the spec: the engine root (program) node for
scenario B, with the export statement as its single direct child. -/
def bEngine : TSNode := tsNode "program" 0 28 [bStmtEngine]

/-- Converted direct child of the root for scenario B. -/
def bChild : BaseNode := convertNode bSrc bStmtEngine

/-- Converted root for scenario B. -/
def bRoot : BaseNode := convertNode bSrc bEngine

/-- Scenario D source bytes. -/
def dSrc : List Char := "for (const item of items) \x7b\x7d".toList

/-- Modelled from the spec: the engine CST statement node for
scenario D (tree-sitter parses for-of as a for_in_statement kind with an
of operator token). -/
def dStmtEngine : TSNode :=
  tsNode "for_in_statement" 0 28
    [tsLeaf "for" 0 3,
     tsLeaf "(" 4 5,
     tsLeaf "const" 5 10,
     tsLeaf "identifier" 11 15,
     tsLeaf "of" 16 18,
     tsLeaf "identifier" 19 24,
     tsLeaf ")" 24 25,
     tsNode "statement_block" 26 28 [tsLeaf "\x7b" 26 27, tsLeaf "\x7d" 27 28]]

/-- Modelled from the spec: the engine root node for scenario D. -/
def dEngine : TSNode := tsNode "program" 0 28 [dStmtEngine]

/-- Converted direct child of the root for scenario D. -/
def dChild : BaseNode := convertNode dSrc dStmtEngine

/-- Converted root for scenario D. -/
def dRoot : BaseNode := convertNode dSrc dEngine

/-- Scenario C source bytes. -/
def cSrc : List Char := "const add = (a, b) => a + b;".toList

/-- Modelled from the spec: the engine arrow_function node for
scenario C, with formal parameters, the arrow token and the body
expression. -/
def cArrowEngine : TSNode :=
  tsNode "arrow_function" 12 27
    [tsNode "formal_parameters" 12 18
       [tsLeaf "(" 12 13,
        tsNode "required_parameter" 13 14 [tsLeaf "identifier" 13 14],
        tsLeaf "," 14 15,
        tsNode "required_parameter" 16 17 [tsLeaf "identifier" 16 17],
        tsLeaf ")" 17 18],
     tsLeaf "=>" 19 21,
     tsNode "binary_expression" 22 27
       [tsLeaf "identifier" 22 23, tsLeaf "+" 24 25, tsLeaf "identifier" 26 27]]

/-- Modelled from the spec: the engine variable_declarator node binding
the arrow function to the identifier add. -/
def cDeclaratorEngine : TSNode :=
  tsNode "variable_declarator" 6 27
    [tsLeaf "identifier" 6 9, tsLeaf "=" 10 11, cArrowEngine]

/-- Modelled from the spec: the engine lexical_declaration node for
scenario C. -/
def cLexicalEngine : TSNode :=
  tsNode "lexical_declaration" 0 28
    [tsLeaf "const" 0 5, cDeclaratorEngine, tsLeaf ";" 27 28]

/-- Modelled from the spec: the engine root node for scenario C. -/
def cEngine : TSNode := tsNode "program" 0 28 [cLexicalEngine]

/-- Converted root for scenario C. -/
def cRoot : BaseNode := convertNode cSrc cEngine

/-- Converted arrow-function node for scenario C. -/
def cArrow : BaseNode := convertNode cSrc cArrowEngine

/-- Ancestor chain of the arrow-function node inside the scenario C tree,
nearest ancestor first, as wired by the parent references of convertNode. -/
def cAncestors : List BaseNode :=
  [convertNode cSrc cDeclaratorEngine, convertNode cSrc cLexicalEngine, cRoot]

/-! ### Induction principles for the nested tree types -/

/-- Structural induction for BaseNode through the nested child list. -/
theorem BaseNode.treeInduction (P : BaseNode → Prop)
    (h : ∀ t c r ch, (∀ x ∈ ch, P x) → P (.mk t c r ch)) : ∀ n, P n := by
  have key : ∀ k, ∀ n : BaseNode, sizeOf n ≤ k → P n := by
    intro k
    induction k with
    | zero =>
      intro n hn
      cases n with
      | mk t c r ch => simp [BaseNode.mk.sizeOf_spec] at hn
    | succ k ih =>
      intro n hn
      cases n with
      | mk t c r ch =>
        apply h
        intro x hx
        apply ih
        have h1 := List.sizeOf_lt_of_mem hx
        have h2 : sizeOf (BaseNode.mk t c r ch) =
            1 + sizeOf t + sizeOf c + sizeOf r + sizeOf ch := by
          simp [BaseNode.mk.sizeOf_spec]
        omega
  intro n
  exact key (sizeOf n) n (le_refl _)

/-- Structural induction for TSNode through the nested optional child
list. -/
theorem TSNode.engineTreeInduction (P : TSNode → Prop)
    (h : ∀ k sB eB sP eP ch, (∀ c, some c ∈ ch → P c) → P (.mk k sB eB sP eP ch)) :
    ∀ n, P n := by
  have key : ∀ m, ∀ n : TSNode, sizeOf n ≤ m → P n := by
    intro m
    induction m with
    | zero =>
      intro n hn
      cases n with
      | mk k sB eB sP eP ch => simp [TSNode.mk.sizeOf_spec] at hn
    | succ m ih =>
      intro n hn
      cases n with
      | mk k sB eB sP eP ch =>
        apply h
        intro c hc
        apply ih
        have h1 := List.sizeOf_lt_of_mem hc
        have h2 : sizeOf (some c) = 1 + sizeOf c := by simp
        have h3 : sizeOf (TSNode.mk k sB eB sP eP ch) =
            1 + sizeOf k + sizeOf sB + sizeOf eB + sizeOf sP + sizeOf eP + sizeOf ch := by
          simp [TSNode.mk.sizeOf_spec]
        omega
  intro n
  exact key (sizeOf n) n (le_refl _)


/-! ### Concrete nodes used as counterexamples and witnesses -/

/-- A root child whose raw text is a line comment preceded by one space:
the trimmed text is a line comment, but the raw text does not start with
the marker. -/
def c8node : BaseNode := .mk .unknown " //c" ⟨⟨0, 0, 0⟩, ⟨0, 4, 4⟩⟩ []

/-- A root child holding a plain expression, matched by no classification
rule before the fallback. -/
def exprNode : BaseNode := .mk .expression "x + y" ⟨⟨0, 0, 0⟩, ⟨0, 5, 5⟩⟩ []

/-- A childless node tagged Parameter with non-empty trimmed text. -/
def c9node : BaseNode := .mk .parameter "a" ⟨⟨0, 0, 0⟩, ⟨0, 1, 1⟩⟩ []

/-- A var-prefixed variable declaration whose initializer string literal
contains the substring "const ". -/
def c10node : BaseNode :=
  .mk .unknown "var x = \"const \"" ⟨⟨0, 0, 0⟩, ⟨0, 17, 17⟩⟩ []

/-! ### Helper lemmas -/

/-- Two incomparable strings cannot both be prefixes of the same string:
if s starts with p, and neither of p and q starts with the other, then s
does not start with q. -/
theorem goStartsWith_excl {s p q : String} (hp : goStartsWith s p = true)
    (h1 : goStartsWith q p = false) (h2 : goStartsWith p q = false) :
    goStartsWith s q = false := by
  unfold goStartsWith at *
  by_contra hq
  rw [Bool.not_eq_false] at hq
  have hp' := List.isPrefixOf_iff_prefix.mp hp
  have hq' := List.isPrefixOf_iff_prefix.mp hq
  rcases List.prefix_or_prefix_of_prefix hp' hq' with h | h
  · rw [← List.isPrefixOf_iff_prefix] at h
    rw [h1] at h
    simp at h
  · rw [← List.isPrefixOf_iff_prefix] at h
    rw [h2] at h
    simp at h


/-- Negation of every classification guard of buildStatement before the
fallback: the child is matched by no rule. -/
def noEarlierRuleMatches (node : BaseNode) : Bool :=
  !(goStartsWith (goTrim node.content) "const " ||
    goStartsWith (goTrim node.content) "let " ||
    goStartsWith (goTrim node.content) "var ") &&
  !(goStartsWith (goTrim node.content) "function " ||
    goStartsWith (goTrim node.content) "async function") &&
  !(goStartsWith (goTrim node.content) "class " ||
    goStartsWith (goTrim node.content) "abstract class") &&
  !(goStartsWith (goTrim node.content) "if " ||
    goStartsWith (goTrim node.content) "if(") &&
  !(goStartsWith (goTrim node.content) "while " ||
    goStartsWith (goTrim node.content) "while(") &&
  !(goStartsWith (goTrim node.content) "for " ||
    goStartsWith (goTrim node.content) "for(") &&
  !(goStartsWith (goTrim node.content) "switch " ||
    goStartsWith (goTrim node.content) "switch(") &&
  !(goStartsWith (goTrim node.content) "try " ||
    goStartsWith (goTrim node.content) "try\x7b") &&
  !(goStartsWith (goTrim node.content) "return") &&
  !(goStartsWith (goTrim node.content) "throw ") &&
  !(goStartsWith (goTrim node.content) "break") &&
  !(goStartsWith (goTrim node.content) "continue") &&
  !(goStartsWith (goTrim node.content) "import ") &&
  !(goStartsWith (goTrim node.content) "export ") &&
  !(goContains node.content "enum ") &&
  !(goContains node.content "namespace ")

/-! ### Claim theorems -/

/-- C1 (counterexample). For the input "export async function f() \x7b\x7d"
the typed tree holds exactly one statement, and it is an ExportDeclaration,
not a FunctionDeclaration: the child text starts with "export ", and the
export rule precedes the function rule in buildStatement, so the claimed
FunctionDeclaration with Name "f", IsAsync and IsExported is never built. -/
theorem exportAsyncFunction_not_functionDecl :
    parseTree (some (some bEngine)) bSrc = .ok (bRoot, [.exportDecl bChild false]) ∧
    Stmt.isFunctionDecl (.exportDecl bChild false) = false :=
  ⟨rfl, rfl⟩

/-- C1 (amended). For the input "export async function f() \x7b\x7d",
building the typed tree yields exactly one statement, and that statement is
an ExportDeclaration whose IsDefault field is false (the text does not
contain "export default"). -/
theorem exportAsyncFunction_yields_exportDecl :
    parseTree (some (some bEngine)) bSrc = .ok (bRoot, [.exportDecl bChild false]) ∧
    goContains bChild.content "export default" = false :=
  ⟨rfl, rfl⟩

/-- C2. For the input "const add = (a, b) => a + b;" the function query
returns exactly one node, the ArrowFunction node; its ancestor chain
(nearest first) is the variable declarator, the lexical declaration and
the root; and name recovery on it returns "add" via the first ancestor
direct Identifier child whose text occurs before the arrow-function text
within the ancestor text. -/
theorem arrowFunction_query_and_name :
    findFunctions (some cRoot) = [cArrow] ∧
    (preorderWithAncestors [] cRoot).filter
      (fun p => p.1.nodeType == .function || p.1.nodeType == .arrowFunction) =
      [(cArrow, cAncestors)] ∧
    GetFunctionName cArrow cAncestors = "add" :=
  ⟨rfl, rfl, rfl⟩

/-- C8 (counterexample). The fallback tests the line-comment marker on the
raw text, not the trimmed text: a child whose raw text is " //c" has a
trimmed text that is a line comment ("//c" starts with "//"), yet
buildStatement produces an ExpressionStatement for it instead of
discarding it. -/
theorem fallback_comment_counterexample :
    buildStatement c8node = some (.exprStmt c8node) ∧
    goStartsWith (goTrim c8node.content) "//" = true :=
  ⟨rfl, rfl⟩

/-- C9 (counterexample). CountParameters counts the argument node itself:
on a childless node tagged Parameter with text "a" (no descendants at
all) it returns 1, where a descendants-only count would return 0. -/
theorem countParameters_counts_self :
    CountParameters (some c9node) = 1 ∧ c9node.children = [] :=
  ⟨rfl, rfl⟩

/-- C10. Any direct child whose trimmed text starts with "const ", "let "
or "var " becomes a VariableStatement whose Kind is computed by substring
containment on the full raw text with priority const, then let, then var
-- independently of the leading keyword. -/
theorem variableStatement_kind_by_containment (node : BaseNode)
    (h : (goStartsWith (goTrim node.content) "const " ||
          goStartsWith (goTrim node.content) "let " ||
          goStartsWith (goTrim node.content) "var ") = true) :
    buildStatement node = some (.variableStmt node
      (if goContains node.content "const " then "const"
       else if goContains node.content "let " then "let"
       else "var")) := by
  unfold buildStatement buildVariableStatement
  simp only [h]
  simp

/-- C10 (witness). The declaration with raw text
var x = "const " (var-prefixed, containing "const " only inside its string
literal) is classified as a VariableStatement with Kind "const". -/
theorem variableStatement_kind_by_containment_witness :
    (goStartsWith (goTrim c10node.content) "const " ||
     goStartsWith (goTrim c10node.content) "let " ||
     goStartsWith (goTrim c10node.content) "var ") = true ∧
    buildStatement c10node = some (.variableStmt c10node "const") :=
  ⟨rfl, (variableStatement_kind_by_containment c10node rfl).trans rfl⟩


/-- C3. Every direct child whose trimmed text starts with "for " or "for("
reaches buildForStatement (no earlier rule can match such a text), which
sub-classifies by substring search: ForOf with IsAwait = containment of
"await " when the text contains " of ", else ForIn when it contains
" in ", else a plain For; and for the scenario input
"for (const item of items) \x7b\x7d" the typed tree holds exactly one
statement, a ForOfStatement with IsAwait false. -/
theorem forFamily_classification :
    (∀ node : BaseNode,
      (goStartsWith (goTrim node.content) "for " ||
       goStartsWith (goTrim node.content) "for(") = true →
      buildStatement node = some
        (if goContains node.content " of " then
           Stmt.forOfStmt node (goContains node.content "await ")
         else if goContains node.content " in " then Stmt.forInStmt node
         else Stmt.forStmt node)) ∧
    parseTree (some (some dEngine)) dSrc = .ok (dRoot, [.forOfStmt dChild false]) := by
  constructor
  · intro node h
    rcases Bool.or_eq_true_iff.mp h with hf | hf
    all_goals
      have e1 : goStartsWith (goTrim node.content) "const " = false :=
        goStartsWith_excl hf (by decide) (by decide)
      have e2 : goStartsWith (goTrim node.content) "let " = false :=
        goStartsWith_excl hf (by decide) (by decide)
      have e3 : goStartsWith (goTrim node.content) "var " = false :=
        goStartsWith_excl hf (by decide) (by decide)
      have e4 : goStartsWith (goTrim node.content) "function " = false :=
        goStartsWith_excl hf (by decide) (by decide)
      have e5 : goStartsWith (goTrim node.content) "async function" = false :=
        goStartsWith_excl hf (by decide) (by decide)
      have e6 : goStartsWith (goTrim node.content) "class " = false :=
        goStartsWith_excl hf (by decide) (by decide)
      have e7 : goStartsWith (goTrim node.content) "abstract class" = false :=
        goStartsWith_excl hf (by decide) (by decide)
      have e8 : goStartsWith (goTrim node.content) "if " = false :=
        goStartsWith_excl hf (by decide) (by decide)
      have e9 : goStartsWith (goTrim node.content) "if(" = false :=
        goStartsWith_excl hf (by decide) (by decide)
      have e10 : goStartsWith (goTrim node.content) "while " = false :=
        goStartsWith_excl hf (by decide) (by decide)
      have e11 : goStartsWith (goTrim node.content) "while(" = false :=
        goStartsWith_excl hf (by decide) (by decide)
      unfold buildStatement buildForStatement
      simp only [e1, e2, e3, e4, e5, e6, e7, e8, e9, e10, e11, h, hf,
        Bool.or_false, Bool.false_or, Bool.or_true, Bool.true_or]
      simp
  · rfl

/-- C3 (witness). The converted scenario D child satisfies the for-prefix
hypothesis and is classified as a ForOfStatement with IsAwait false. -/
theorem forFamily_classification_witness :
    (goStartsWith (goTrim dChild.content) "for " ||
     goStartsWith (goTrim dChild.content) "for(") = true ∧
    buildStatement dChild = some (.forOfStmt dChild false) :=
  ⟨rfl, (forFamily_classification.1 dChild rfl).trans rfl⟩


/-- C8 (amended). For every direct child matched by no classification
rule: when the trimmed text is non-empty and the raw (untrimmed) text does
not start with the line-comment marker "//", an ExpressionStatement
wrapping the child is produced; otherwise no statement is produced (the
child is discarded, not an error). -/
theorem fallback_characterization (node : BaseNode)
    (h : noEarlierRuleMatches node = true) :
    buildStatement node =
      (if (goTrim node.content).length > 0 && !(goStartsWith node.content "//")
       then some (.exprStmt node) else none) := by
  unfold noEarlierRuleMatches at h
  simp only [Bool.and_eq_true, Bool.not_eq_true', and_assoc] at h
  obtain ⟨h1, h2, h3, h4, h5, h6, h7, h8, h9, h10, h11, h12, h13, h14, h15, h16⟩ := h
  unfold buildStatement
  simp only [h1, h2, h3, h4, h5, h6, h7, h8, h9, h10, h11, h12, h13, h14, h15, h16]
  simp

/-- C8 (amended witness). The expression child with text "x + y" matches no
rule and yields an ExpressionStatement. -/
theorem fallback_characterization_witness :
    noEarlierRuleMatches exprNode = true ∧
    buildStatement exprNode = some (.exprStmt exprNode) :=
  ⟨rfl, (fallback_characterization exprNode rfl).trans rfl⟩


/-- C9 (amended). CountParameters equals the number of nodes among the
argument node itself and all of its descendants that are tagged Parameter
with non-empty trimmed text not starting with an opening parenthesis. -/
theorem countParameters_counts_node_and_descendants :
    ∀ n : BaseNode, CountParameters (some n) =
      ((allNodes n).filter isCountedParameter).length := by
  have aux : ∀ l : List BaseNode,
      (∀ x ∈ l, countInNode x = ((allNodes x).filter isCountedParameter).length) →
      countInList l = ((allNodesList l).filter isCountedParameter).length := by
    intro l
    induction l with
    | nil => intro _; rfl
    | cons head tail iht =>
      intro hx
      rw [countInList, allNodesList, List.filter_append, List.length_append]
      rw [hx head (by simp)]
      rw [iht (fun x hx2 => hx x (by simp [hx2]))]
  have main : ∀ n : BaseNode,
      countInNode n = ((allNodes n).filter isCountedParameter).length := by
    apply BaseNode.treeInduction
    intro t c r ch ih
    rw [countInNode, allNodes, List.filter_cons, aux ch ih]
    by_cases hp : isCountedParameter (.mk t c r ch)
    · simp [hp]
      omega
    · simp [hp]
  intro n
  exact main n

/-- Every node of the converted-children list comes from converting some
non-nil engine child. -/
theorem mem_convertChildren {src : List Char} {b : BaseNode} :
    ∀ cs : List (Option TSNode), b ∈ allNodesList (convertChildren src cs) →
      ∃ c, some c ∈ cs ∧ b ∈ allNodes (convertNode src c) := by
  intro cs
  induction cs with
  | nil => intro h; simp [convertChildren, allNodesList] at h
  | cons head tail iht =>
    cases head with
    | none =>
      intro h
      rw [convertChildren] at h
      obtain ⟨c, hc, hb⟩ := iht h
      exact ⟨c, by simp [hc], hb⟩
    | some c0 =>
      intro h
      rw [convertChildren, allNodesList] at h
      rcases List.mem_append.mp h with h1 | h2
      · exact ⟨c0, by simp, h1⟩
      · obtain ⟨c, hc, hb⟩ := iht h2
        exact ⟨c, by simp [hc], hb⟩

/-- A node is a member of its own allNodes enumeration. -/
theorem self_mem_allNodes : ∀ n : BaseNode, n ∈ allNodes n := by
  intro n
  cases n with
  | mk t c r ch => rw [allNodes]; exact List.mem_cons_self _ _

/-- C7. For every node of a tree produced by convertNode over a source
buffer -- the root and, recursively, every converted child -- the stored
text equals the source substring addressed by the stored
byte-offset range. -/
theorem convert_text_matches_range :
    ∀ (src : List Char) (ts : TSNode), ∀ b ∈ allNodes (convertNode src ts),
      b.content = strSlice src b.sourceRange.start.offset b.sourceRange.stop.offset := by
  intro src ts
  induction ts using TSNode.engineTreeInduction with
  | h k sB eB sP eP ch ih =>
    intro b hb
    rw [convertNode, allNodes] at hb
    rcases List.mem_cons.mp hb with rfl | hb2
    · rfl
    · obtain ⟨c, hcmem, hbmem⟩ := mem_convertChildren ch hb2
      exact ih c hcmem b hbmem

/-- C7 (witness). The converted scenario C root is a node of its own tree
and its text is the slice of the source addressed by its stored range. -/
theorem convert_text_matches_range_witness :
    cRoot ∈ allNodes (convertNode cSrc cEngine) ∧
    cRoot.content = strSlice cSrc cRoot.sourceRange.start.offset cRoot.sourceRange.stop.offset :=
  ⟨self_mem_allNodes cRoot,
   convert_text_matches_range cSrc cEngine cRoot (self_mem_allNodes cRoot)⟩


/-- C6. parse fails exactly when the source has zero length or the engine
produced no tree or no root; an empty source always fails with the
empty-input error, regardless of the engine; and whenever parse fails it
returns no node alongside the error. -/
theorem parse_failure_characterization :
    ∀ (engine : Option (Option TSNode)) (source : List Char),
      ((∃ e, parse engine source = .error e) ↔
        (source.length = 0 ∨ engine = none ∨ engine = some none)) ∧
      (source.length = 0 → parse engine source = .error .emptyInput) ∧
      (∀ e, parse engine source = .error e →
        ∀ root, parse engine source ≠ .ok root) := by
  intro engine source
  refine ⟨⟨?_, ?_⟩, ?_, ?_⟩
  · rintro ⟨e, he⟩
    unfold parse at he
    by_cases hs : source.length = 0
    · exact Or.inl hs
    · match engine with
      | none => exact Or.inr (Or.inl rfl)
      | some none => exact Or.inr (Or.inr rfl)
      | some (some r) => simp [hs] at he
  · intro h
    unfold parse
    by_cases hs : source.length = 0
    · exact ⟨.emptyInput, by simp [hs]⟩
    · rcases h with h | h | h
      · exact absurd h hs
      · subst h
        exact ⟨.engineFailure, by simp [hs]⟩
      · subst h
        exact ⟨.noRootNode, by simp [hs]⟩
  · intro h
    unfold parse
    simp [h]
  · intro e he root
    rw [he]
    simp

/-- C6 (witness). With a healthy engine and the empty source, parse fails
with the empty-input error and yields no partial node. -/
theorem parse_failure_characterization_witness :
    parse (some (some (tsLeaf "program" 0 0))) [] = .error .emptyInput ∧
    parse (some (some (tsLeaf "program" 0 0))) [] ≠
      .ok (convertNode [] (tsLeaf "program" 0 0)) := by
  have h := parse_failure_characterization (some (some (tsLeaf "program" 0 0))) []
  exact ⟨h.2.1 rfl, h.2.2 .emptyInput (h.2.1 rfl) _⟩


/-- C4. The switch-based and the map-based kind classifiers compute the
same total function from raw kind tags to taxonomy tags; moreover, on any
tag with no direct mapping, the result is Expression exactly for members
of the fixed expression-like set and Unknown for every other tag. -/
theorem mapNodeType_switch_eq_map :
    ∀ tsType : String,
      mapNodeTypeSwitch tsType = mapNodeTypeMapBased tsType ∧
      (nodeTypeMap.lookup tsType = none →
        mapNodeTypeMapBased tsType =
          (if expressionTypes.contains tsType then .expression else .unknown)) := by
  intro t
  constructor
  · 
    by_cases h1 : t = "function_declaration"
    · subst h1
      rfl
    by_cases h2 : t = "arrow_function"
    · subst h2
      rfl
    by_cases h3 : t = "method_definition"
    · subst h3
      rfl
    by_cases h4 : t = "interface_declaration"
    · subst h4
      rfl
    by_cases h5 : t = "type_alias_declaration"
    · subst h5
      rfl
    by_cases h6 : t = "identifier"
    · subst h6
      rfl
    by_cases h7 : t = "property_signature"
    · subst h7
      rfl
    by_cases h8 : t = "formal_parameters"
    · subst h8
      rfl
    by_cases h9 : t = "required_parameter"
    · subst h9
      rfl
    by_cases h10 : t = "optional_parameter"
    · subst h10
      rfl
    by_cases h11 : t = "string"
    · subst h11
      rfl
    by_cases h12 : t = "number"
    · subst h12
      rfl
    by_cases h13 : t = "true"
    · subst h13
      rfl
    by_cases h14 : t = "false"
    · subst h14
      rfl
    by_cases h15 : t = "null"
    · subst h15
      rfl
    by_cases h16 : t = "undefined"
    · subst h16
      rfl
    have c1 : (t == "function_declaration") = false := by simp [h1]
    have c2 : (t == "arrow_function") = false := by simp [h2]
    have c3 : (t == "method_definition") = false := by simp [h3]
    have c4 : (t == "interface_declaration") = false := by simp [h4]
    have c5 : (t == "type_alias_declaration") = false := by simp [h5]
    have c6 : (t == "identifier") = false := by simp [h6]
    have c7 : (t == "property_signature") = false := by simp [h7]
    have c8 : (t == "formal_parameters") = false := by simp [h8]
    have c9 : (t == "required_parameter") = false := by simp [h9]
    have c10 : (t == "optional_parameter") = false := by simp [h10]
    have c11 : (t == "string") = false := by simp [h11]
    have c12 : (t == "number") = false := by simp [h12]
    have c13 : (t == "true") = false := by simp [h13]
    have c14 : (t == "false") = false := by simp [h14]
    have c15 : (t == "null") = false := by simp [h15]
    have c16 : (t == "undefined") = false := by simp [h16]
    unfold mapNodeTypeSwitch mapNodeTypeMapBased
    simp only [nodeTypeMap, List.lookup, c1, c2, c3, c4, c5, c6, c7, c8, c9, c10, c11, c12, c13, c14, c15, c16]
    simp [h1, h2, h3, h4, h5, h6, h7, h8, h9, h10, h11, h12, h13, h14, h15, h16, isExpressionTypeSwitch, expressionTypes, List.contains_eq_any_beq]
  · intro h
    unfold mapNodeTypeMapBased
    rw [h]


/-- C4 (witness). The unmapped tag binary_expression: both classifiers
agree on it, it has no direct mapping, and it is classified Expression by
the expression-set membership test. -/
theorem mapNodeType_switch_eq_map_witness :
    mapNodeTypeSwitch "binary_expression" = mapNodeTypeMapBased "binary_expression" ∧
    nodeTypeMap.lookup "binary_expression" = none ∧
    mapNodeTypeMapBased "binary_expression" =
      (if expressionTypes.contains "binary_expression" then .expression else .unknown) :=
  ⟨(mapNodeType_switch_eq_map "binary_expression").1, rfl,
   (mapNodeType_switch_eq_map "binary_expression").2 rfl⟩

/-- Shifting the initial ancestor accumulator of the traversal appends it
to the ancestor list of every enumerated node. -/
theorem pwa_shift : ∀ n : BaseNode, ∀ anc1 anc2 : List BaseNode,
    preorderWithAncestors (anc1 ++ anc2) n =
      (preorderWithAncestors anc1 n).map (fun p => (p.1, p.2 ++ anc2)) := by
  apply BaseNode.treeInduction
  intro t c r ch ih
  intro anc1 anc2
  rw [preorderWithAncestors, preorderWithAncestors, List.map_cons]
  have aux : ∀ l : List BaseNode,
      (∀ x ∈ l, ∀ a1 a2 : List BaseNode, preorderWithAncestors (a1 ++ a2) x =
        (preorderWithAncestors a1 x).map (fun p => (p.1, p.2 ++ a2))) →
      ∀ a1 a2 : List BaseNode,
        preorderWithAncestorsList (a1 ++ a2) l =
          (preorderWithAncestorsList a1 l).map (fun p => (p.1, p.2 ++ a2)) := by
    intro l
    induction l with
    | nil => intro _ a1 a2; rfl
    | cons head tail iht =>
      intro hx a1 a2
      rw [preorderWithAncestorsList, preorderWithAncestorsList, List.map_append]
      rw [hx head (by simp) a1 a2]
      rw [iht (fun x hx2 => hx x (by simp [hx2])) a1 a2]
  have step : BaseNode.mk t c r ch :: (anc1 ++ anc2) =
      (BaseNode.mk t c r ch :: anc1) ++ anc2 := rfl
  rw [step, aux ch ih (BaseNode.mk t c r ch :: anc1) anc2]

/-- C5. Visiting a nil root invokes the visitor zero times; and for every
tree and every (pure) visitor, the trace of visitNode is exactly the
depth-first pre-order enumeration restricted to the nodes all of whose
ancestors the visitor answered true on: answering false on a node skips
only the subtree of that node, leaving every sibling at every ancestor level
visited. -/
theorem visit_preorder_stop_local :
    (∀ visitor, visitTrace none visitor = []) ∧
    (∀ (root : BaseNode) (visitor : BaseNode → Bool),
      visitTrace (some root) visitor =
        ((preorderWithAncestors [] root).filter
          (fun p => p.2.all visitor)).map Prod.fst) := by
  constructor
  · intro visitor
    rfl
  · have main : ∀ (root : BaseNode) (v : BaseNode → Bool),
        visitSeq v root =
          ((preorderWithAncestors [] root).filter (fun p => p.2.all v)).map Prod.fst := by
      apply BaseNode.treeInduction
      intro t c r ch ih v
      have auxList : ∀ l : List BaseNode,
          (∀ x ∈ l, ∀ v2 : BaseNode → Bool, visitSeq v2 x =
            ((preorderWithAncestors [] x).filter (fun p => p.2.all v2)).map Prod.fst) →
          visitSeqList v l =
            ((preorderWithAncestorsList [] l).filter (fun p => p.2.all v)).map Prod.fst := by
        intro l
        induction l with
        | nil => intro _; rfl
        | cons head tail iht =>
          intro hx
          rw [visitSeqList, preorderWithAncestorsList, List.filter_append,
            List.map_append]
          rw [hx head (by simp) v]
          rw [iht (fun x hx2 => hx x (by simp [hx2]))]
      have hshift : preorderWithAncestorsList [BaseNode.mk t c r ch] ch =
          (preorderWithAncestorsList [] ch).map
            (fun p => (p.1, p.2 ++ [BaseNode.mk t c r ch])) := by
        have aux2 : ∀ l : List BaseNode,
            (∀ x ∈ l, ∀ a1 a2 : List BaseNode, preorderWithAncestors (a1 ++ a2) x =
              (preorderWithAncestors a1 x).map (fun p => (p.1, p.2 ++ a2))) →
            ∀ a1 a2 : List BaseNode,
              preorderWithAncestorsList (a1 ++ a2) l =
                (preorderWithAncestorsList a1 l).map (fun p => (p.1, p.2 ++ a2)) := by
          intro l
          induction l with
          | nil => intro _ a1 a2; rfl
          | cons head tail iht =>
            intro hx a1 a2
            rw [preorderWithAncestorsList, preorderWithAncestorsList, List.map_append]
            rw [hx head (by simp) a1 a2]
            rw [iht (fun x hx2 => hx x (by simp [hx2])) a1 a2]
        have := aux2 ch (fun x _ a1 a2 => pwa_shift x a1 a2) [] [BaseNode.mk t c r ch]
        simpa using this
      rw [visitSeq, preorderWithAncestors]
      rw [List.filter_cons]
      have hroot : ((BaseNode.mk t c r ch, ([] : List BaseNode)).2.all v) = true := rfl
      rw [hroot]
      simp only [List.map_cons]
      rw [hshift, List.filter_map]
      have hcomp : ((fun p : BaseNode × List BaseNode => p.2.all v) ∘
          (fun p : BaseNode × List BaseNode => (p.1, p.2 ++ [BaseNode.mk t c r ch]))) =
          (fun p : BaseNode × List BaseNode => p.2.all v && v (BaseNode.mk t c r ch)) := by
        funext p
        simp [List.all_append]
      rw [hcomp]
      have hfst : (Prod.fst ∘ fun p : BaseNode × List BaseNode =>
          (p.1, p.2 ++ [BaseNode.mk t c r ch])) = Prod.fst := by
        funext p
        rfl
      by_cases hv : v (BaseNode.mk t c r ch) = true
      · rw [if_pos hv]
        simp only [hv, Bool.and_true, if_true, List.map_cons]
        rw [auxList ch (fun x hx2 v2 => ih x hx2 v2), List.map_map, hfst]
      · rw [Bool.not_eq_true] at hv
        rw [if_neg (by simp [hv])]
        simp only [hv, Bool.and_false, List.filter_false, if_true, List.map_nil,
          List.map_cons]
    intro root visitor
    exact main root visitor

end Tsgoast
